import Mathlib

/-!
Shallow embedding of the `nervos-p2p` repository:

* the ping liveness protocol handler, `src/protocols/ping/src/lib.rs`
  (`PingHandler`: `connected`, `disconnected`, `received`, `notify`,
  together with the per-session `PingStatus` record and its `nonce` and
  `elapsed` helpers);
* the secio key-exchange module, `src/secio/src/exchange.rs`
  (`generate_agreement` and `agree`).

Modelling conventions:

* `SystemTime` values are natural numbers of nanoseconds since
  `UNIX_EPOCH`; a `Duration` is likewise a number of nanoseconds.
  `SystemTime::now()` becomes an explicit `now : Nat` parameter of each
  operation.  `duration_since(UNIX_EPOCH)` on such a timestamp is the
  timestamp itself, and `elapsed().unwrap_or(0)` is truncated natural
  subtraction `now - last_ping` (the Rust error branch, a clock that went
  backwards, is exactly the truncated-to-zero case).
* The `HashMap<SessionId, PingStatus>` is embedded as an association list
  `List (SessionId × PingStatus)` whose keys are unique in every state
  reachable through the handler; insertion appends, lookup takes the
  first match.
* `PeerId` is opaque; `pubkey.peer_id()` (from the external `p2p` crate)
  is modelled as the identity on the opaque value.
* Effects on the transport (`send_message`, `filter_broadcast`,
  `disconnect`) are returned as a list of `OutCmd` requests, and events
  pushed into the event channel as a list of `Event`; failures of these
  channels are logged-and-ignored by the Rust code, so they do not
  influence the handler state.
* The `panic!` on an unknown timer token in `notify` is modelled by
  returning `none`; both registered tokens return `some`.
-/

abbrev SessionId := Nat

abbrev PeerId := Nat

def SEND_PING_TOKEN : Nat := 0

def CHECK_TIMEOUT_TOKEN : Nat := 1

/-- Ping protocol events (`enum Event` in the source; the spec's names are
`PeerPinged`, `PeerPonged`, `PeerTimedOut`, `PeerMisbehaved`). -/
inductive Event where
  | Ping (peer : PeerId)
  | Pong (peer : PeerId) (rtt : Nat)
  | Timeout (peer : PeerId)
  | UnexpectedError (peer : PeerId)
deriving DecidableEq, Repr

/-- Requests the handler makes of the transport. -/
inductive OutCmd where
  | sendPong (sid : SessionId) (nonce : Nat)
  | broadcastPing (sids : List SessionId) (nonce : Nat)
  | disconnect (sid : SessionId)
deriving DecidableEq, Repr

/-- Decoded inbound payload: the two wire variants, the `PingPayload::NONE`
tag, and a failed `get_root` decode. -/
inductive PingMessage where
  | decodeError
  | ping (nonce : Nat)
  | pong (nonce : Nat)
  | nonePayload
deriving DecidableEq, Repr

/-- `PingStatus` of a peer: per-session liveness state. -/
structure PingStatus where
  processing : Bool
  last_ping : Nat
  peer_id : PeerId
deriving DecidableEq, Repr

def nanosPerSec : Nat := 1000000000

/-- Nonce of a status: seconds since the epoch of `last_ping`, truncated to
32 bits (`dur.as_secs() as u32`, with `unwrap_or(0)` impossible for a
natural-number timestamp). -/
def PingStatus.nonce (ps : PingStatus) : Nat :=
  ps.last_ping / nanosPerSec % 4294967296

/-- Time elapsed since the last ping, `elapsed().unwrap_or(0)`. -/
def PingStatus.elapsed (ps : PingStatus) (now : Nat) : Nat :=
  now - ps.last_ping

abbrev SessionMap := List (SessionId × PingStatus)

/-- First-match lookup in the session map (`HashMap::get`). -/
def lookupSession : SessionMap → SessionId → Option PingStatus
  | [], _ => none
  | (s, ps) :: rest, sid => if s = sid then some ps else lookupSession rest sid

/-- Overwrite the `processing` flag of the entry for `sid`
(`HashMap::get_mut` followed by `ps.processing = value`). -/
def setProcessing : SessionMap → SessionId → Bool → SessionMap
  | [], _, _ => []
  | (s, ps) :: rest, sid, b =>
    if s = sid then (s, { ps with processing := b }) :: rest
    else (s, ps) :: setProcessing rest sid b

/-- `PingHandler::connected`: with a remote public key, insert a fresh
status if the session id is not yet tracked (`entry(..).or_insert_with`);
without one, ask the transport to disconnect the session. -/
def connected (m : SessionMap) (sid : SessionId) (remote_pubkey : Option PeerId)
    (now : Nat) : SessionMap × List OutCmd :=
  match remote_pubkey with
  | some pubkey =>
    match lookupSession m sid with
    | some _ => (m, [])
    | none => (m ++ [(sid, { processing := false, last_ping := now, peer_id := pubkey })], [])
  | none => (m, [OutCmd.disconnect sid])

/-- `PingHandler::disconnected`: remove the tracked state for the session. -/
def disconnected (m : SessionMap) (sid : SessionId) : SessionMap :=
  m.filter (fun e => e.1 ≠ sid)

/-- `PingHandler::received`.  The outer `if let Some(peer_id) = ...get(..)`
skips everything when the session is untracked.  A `Ping` is answered with
a `Pong` carrying the same nonce and reported as `Event::Ping`.  A `Pong`
is matched against `(processing, nonce())` of the tracked status; on a
match the flag is cleared and `Event::Pong` carries `elapsed()`; otherwise
`Event::UnexpectedError` is reported and nothing changes.  Undecodable
data and the `NONE` payload also report `Event::UnexpectedError`. -/
def received (m : SessionMap) (sid : SessionId) (data : PingMessage)
    (now : Nat) : SessionMap × List Event × List OutCmd :=
  match lookupSession m sid with
  | none => (m, [], [])
  | some ps0 =>
    let peer_id := ps0.peer_id
    match data with
    | PingMessage.decodeError => (m, [Event.UnexpectedError peer_id], [])
    | PingMessage.ping n => (m, [Event.Ping peer_id], [OutCmd.sendPong sid n])
    | PingMessage.pong n =>
      if (lookupSession m sid).map (fun ps => (ps.processing, ps.nonce)) = some (true, n) then
        match lookupSession m sid with
        | some ps => (setProcessing m sid false, [Event.Pong peer_id (ps.elapsed now)], [])
        | none => (m, [], [])
      else (m, [Event.UnexpectedError peer_id], [])
    | PingMessage.nonePayload => (m, [Event.UnexpectedError peer_id], [])

/-- The send-ping sweep of `notify` (`iter_mut().filter_map(..).collect()`):
walk the map, flip every idle entry to `processing := true` with
`last_ping := now`, and collect `(session_id, nonce)` for each flipped
entry, in map order. -/
def sendPingUpdate (now : Nat) : SessionMap → SessionMap × List (SessionId × Nat)
  | [] => ([], [])
  | (sid, ps) :: rest =>
    let r := sendPingUpdate now rest
    if ps.processing then ((sid, ps) :: r.1, r.2)
    else
      let ps' : PingStatus := { ps with processing := true, last_ping := now }
      ((sid, ps') :: r.1, (sid, ps'.nonce) :: r.2)

/-- `PingHandler::notify`.  Token `SEND_PING_TOKEN` runs the send-ping
sweep and, when anything was collected, broadcasts one `Ping` whose nonce
is the first collected entry's nonce (`peers[0].1`) to all collected
session ids.  Token `CHECK_TIMEOUT_TOKEN` reports `Event::Timeout` for
every entry with `processing && elapsed() >= timeout`, touching no state.
Any other token makes the Rust code abort; modelled as `none`. -/
def notify (timeout : Nat) (m : SessionMap) (token : Nat) (now : Nat) :
    Option (SessionMap × List Event × List OutCmd) :=
  if token = SEND_PING_TOKEN then
    let r := sendPingUpdate now m
    let cmds := match r.2 with
      | [] => []
      | (_, nonce0) :: _ => [OutCmd.broadcastPing (r.2.map Prod.fst) nonce0]
    some (r.1, [], cmds)
  else if token = CHECK_TIMEOUT_TOKEN then
    some (m,
      (m.filter (fun e => e.2.processing && decide (timeout ≤ e.2.elapsed now))).map
        (fun e => Event.Timeout e.2.peer_id),
      [])
  else none

/-- Per-tick nonce: what `PingStatus.nonce` returns for any status whose
`last_ping` was stamped with `now`. -/
def nonceAt (now : Nat) : Nat :=
  now / nanosPerSec % 4294967296

lemma lookupSession_setProcessing (m : SessionMap) (sid : SessionId) (b : Bool) :
    lookupSession (setProcessing m sid b) sid =
      (lookupSession m sid).map (fun ps => { ps with processing := b }) := by
  induction m with
  | nil => rfl
  | cons e rest ih =>
    obtain ⟨s, ps⟩ := e
    by_cases hs : s = sid
    · simp [setProcessing, lookupSession, hs]
    · simp [setProcessing, lookupSession, hs, ih]

lemma lookupSession_setProcessing_ne (m : SessionMap) (sid sid' : SessionId) (b : Bool)
    (h : sid' ≠ sid) :
    lookupSession (setProcessing m sid b) sid' = lookupSession m sid' := by
  induction m with
  | nil => rfl
  | cons e rest ih =>
    obtain ⟨s, ps⟩ := e
    by_cases hs : s = sid
    · subst hs
      simp [setProcessing, lookupSession, Ne.symm h, ih]
    · by_cases hs' : s = sid'
      · subst hs'
        simp [setProcessing, lookupSession, hs]
      · simp [setProcessing, lookupSession, hs, hs', ih]

/-- C1 counterexample: the claim says a `Pong` arriving on an untracked
session emits `PeerMisbehaved`; the code's outer `get` fails first and the
handler does nothing at all — no event, no command, no state change. -/
theorem pong_untracked_silent :
    received [] 0 (PingMessage.pong 0) 5 = ([], [], []) := rfl

/-- C1 (amended): a pong on an untracked session is ignored entirely; on a
tracked session it is accepted iff `processing = true` and the nonce
matches `PingStatus.nonce` of the tracked state, in which case
`processing` is cleared (other sessions untouched) and
`PeerPonged(peer, now - last_ping)` is emitted; on a mismatch
`PeerMisbehaved(peer)` is emitted and the map is returned unchanged. -/
theorem received_pong_spec (m : SessionMap) (sid : SessionId) (n now : Nat) :
    (lookupSession m sid = none →
      received m sid (PingMessage.pong n) now = (m, [], [])) ∧
    (∀ ps, lookupSession m sid = some ps →
      ((ps.processing = true ∧ ps.nonce = n) →
        received m sid (PingMessage.pong n) now =
          (setProcessing m sid false,
           [Event.Pong ps.peer_id (ps.elapsed now)], []) ∧
        lookupSession (setProcessing m sid false) sid =
          some { ps with processing := false } ∧
        ∀ sid', sid' ≠ sid →
          lookupSession (setProcessing m sid false) sid' = lookupSession m sid') ∧
      (¬(ps.processing = true ∧ ps.nonce = n) →
        received m sid (PingMessage.pong n) now =
          (m, [Event.UnexpectedError ps.peer_id], []))) := by
  constructor
  · intro h
    simp [received, h]
  · intro ps h
    constructor
    · intro hacc
      have hcond : (lookupSession m sid).map (fun ps => (ps.processing, ps.nonce)) =
          some (true, n) := by
        rw [h]
        simp [hacc.1, hacc.2]
      refine ⟨?_, ?_, ?_⟩
      · simp [received, h, hacc.1, hacc.2]
      · rw [lookupSession_setProcessing, h]
        rfl
      · intro sid' hne
        exact lookupSession_setProcessing_ne m sid sid' false hne
    · intro hrej
      have hcond : ¬((lookupSession m sid).map (fun ps => (ps.processing, ps.nonce)) =
          some (true, n)) := by
        rw [h]
        intro hc
        have h2 := Option.some.inj hc
        exact hrej ⟨congrArg Prod.fst h2, congrArg Prod.snd h2⟩
      simp [received, h, hcond]
      intro hp hn
      exact hrej ⟨hp, hn⟩

/-- C1 witness: a concrete tracked session with a matching in-flight nonce
is accepted, clears `processing` and reports the round trip. -/
theorem received_pong_spec_witness :
    received [(1, (⟨true, 5000000000, 42⟩ : PingStatus))] 1 (PingMessage.pong 5) 7000000000 =
      ([(1, ⟨false, 5000000000, 42⟩)], [Event.Pong 42 2000000000], []) := by
  have h :=
    ((received_pong_spec [(1, ⟨true, 5000000000, 42⟩)] 1 5 7000000000).2
      ⟨true, 5000000000, 42⟩ rfl).1 ⟨rfl, rfl⟩
  exact h.1.trans (by rfl)

/-- C2 counterexample: the claim says every received `Ping` is answered
with a `Pong` and reported; on an untracked session the code ignores the
ping completely — no reply is sent and no event is emitted. -/
theorem ping_untracked_silent :
    received [] 0 (PingMessage.ping 7) 5 = ([], [], []) := rfl

/-- C2 (amended): a ping on a tracked session is always answered by a
`Pong` echoing the received nonce on the same session and reported as
`PeerPinged(peer)`, whatever the `processing` flag and `last_ping` are;
a ping on an untracked session is ignored entirely. -/
theorem received_ping_spec (m : SessionMap) (sid : SessionId) (n now : Nat) :
    (lookupSession m sid = none →
      received m sid (PingMessage.ping n) now = (m, [], [])) ∧
    (∀ ps, lookupSession m sid = some ps →
      received m sid (PingMessage.ping n) now =
        (m, [Event.Ping ps.peer_id], [OutCmd.sendPong sid n])) := by
  constructor
  · intro h
    simp [received, h]
  · intro ps h
    simp [received, h]

/-- C2 witness: a concrete tracked session with an in-flight probe
(`processing = true`) still gets its ping answered and reported. -/
theorem received_ping_spec_witness :
    received [(3, (⟨true, 11, 9⟩ : PingStatus))] 3 (PingMessage.ping 77) 999 =
      ([(3, ⟨true, 11, 9⟩)], [Event.Ping 9], [OutCmd.sendPong 3 77]) :=
  (received_ping_spec [(3, ⟨true, 11, 9⟩)] 3 77 999).2 ⟨true, 11, 9⟩ rfl

/-- What one send-ping tick stamped `now` does to a single status: an idle
entry is flipped to an in-flight probe stamped `now`, an in-flight entry
is left untouched. -/
def stepStatus (now : Nat) (ps : PingStatus) : PingStatus :=
  if ps.processing then ps else { ps with processing := true, last_ping := now }

/-- Session ids collected by a send-ping tick: those whose entry was idle. -/
def collectedSids (m : SessionMap) : List SessionId :=
  (m.filter (fun e => !e.2.processing)).map Prod.fst

lemma sendPingUpdate_fst (now : Nat) (m : SessionMap) :
    (sendPingUpdate now m).1 = m.map (fun e => (e.1, stepStatus now e.2)) := by
  induction m with
  | nil => rfl
  | cons e rest ih =>
    obtain ⟨s, ps⟩ := e
    by_cases hp : ps.processing
    · simp [sendPingUpdate, stepStatus, hp, ih]
    · simp [sendPingUpdate, stepStatus, hp, ih]

lemma sendPingUpdate_snd (now : Nat) (m : SessionMap) :
    (sendPingUpdate now m).2 =
      (m.filter (fun e => !e.2.processing)).map (fun e => (e.1, nonceAt now)) := by
  induction m with
  | nil => rfl
  | cons e rest ih =>
    obtain ⟨s, ps⟩ := e
    by_cases hp : ps.processing
    · simp [sendPingUpdate, hp, ih]
    · simp [sendPingUpdate, hp, ih, PingStatus.nonce, nonceAt]

/-- The command list a send-ping tick produces: nothing when the sweep
collected nothing, otherwise one broadcast to the collected session ids
carrying the first collected nonce (`peers[0].1` in the source). -/
def pingCmds (now : Nat) (m : SessionMap) : List OutCmd :=
  match (sendPingUpdate now m).2 with
  | [] => []
  | (_, nonce0) :: _ =>
    [OutCmd.broadcastPing ((sendPingUpdate now m).2.map Prod.fst) nonce0]

lemma lookupSession_map_step (now : Nat) (m : SessionMap) (sid : SessionId) :
    lookupSession (m.map (fun e => (e.1, stepStatus now e.2))) sid =
      (lookupSession m sid).map (stepStatus now) := by
  induction m with
  | nil => rfl
  | cons e rest ih =>
    obtain ⟨s, ps⟩ := e
    by_cases hs : s = sid
    · simp [lookupSession, hs]
    · simp [lookupSession, hs, ih]

lemma lookupSession_of_mem_nodup (m : SessionMap) (sid : SessionId) (ps : PingStatus)
    (hnd : (m.map Prod.fst).Nodup) (hmem : (sid, ps) ∈ m) :
    lookupSession m sid = some ps := by
  induction m with
  | nil => simp at hmem
  | cons e rest ih =>
    obtain ⟨s, ps'⟩ := e
    simp only [List.map_cons, List.nodup_cons] at hnd
    rcases List.mem_cons.mp hmem with h | h
    · injection h with h1 h2
      subst h1
      subst h2
      simp [lookupSession]
    · have hne : s ≠ sid := by
        intro he
        exact hnd.1 (by rw [he]; exact List.mem_map.mpr ⟨(sid, ps), h, rfl⟩)
      simp [lookupSession, hne, ih hnd.2 h]

/-- C3: on a send-ping tick every idle session is flipped to an in-flight
probe stamped with the tick's single `now`, in-flight sessions are left
untouched, and when at least one session was collected exactly one `Ping`
is broadcast to precisely the collected session ids, carrying the nonce
derived from the tick's `now` — which each collected session's own new
state independently derives as well. -/
theorem send_ping_tick (timeout now : Nat) (m : SessionMap)
    (hnd : (m.map Prod.fst).Nodup) :
    ∃ m' cmds, notify timeout m SEND_PING_TOKEN now = some (m', [], cmds) ∧
      m' = m.map (fun e => (e.1, stepStatus now e.2)) ∧
      (collectedSids m = [] → cmds = []) ∧
      (collectedSids m ≠ [] →
        cmds = [OutCmd.broadcastPing (collectedSids m) (nonceAt now)]) ∧
      ∀ sid ∈ collectedSids m, ∃ ps',
        lookupSession m' sid = some ps' ∧
        ps'.processing = true ∧ ps'.last_ping = now ∧ ps'.nonce = nonceAt now := by
  refine ⟨(sendPingUpdate now m).1, pingCmds now m, ?_, sendPingUpdate_fst now m, ?_, ?_, ?_⟩
  · rfl
  · intro hnil
    have hfil : m.filter (fun e => !e.2.processing) = [] := by
      have hnil' : (m.filter (fun e => !e.2.processing)).map Prod.fst = [] := hnil
      exact List.map_eq_nil_iff.mp hnil'
    simp [pingCmds, sendPingUpdate_snd, hfil]
  · intro hne
    have hfil : m.filter (fun e => !e.2.processing) ≠ [] := by
      intro hc
      exact hne (by simp [collectedSids, hc])
    rcases hlist : m.filter (fun e => !e.2.processing) with _ | ⟨e0, rest⟩
    · exact absurd hlist hfil
    · simp [pingCmds, sendPingUpdate_snd, hlist, collectedSids]
  · intro sid hsid
    rcases List.mem_map.mp hsid with ⟨⟨s, ps⟩, hemem, hkey⟩
    have hm : (s, ps) ∈ m := List.mem_of_mem_filter hemem
    have hidle : ps.processing = false := by
      have := List.of_mem_filter hemem
      simpa using this
    have hkey' : s = sid := hkey
    subst hkey'
    have hlook : lookupSession m s = some ps := lookupSession_of_mem_nodup m s ps hnd hm
    refine ⟨stepStatus now ps, ?_, ?_, ?_, ?_⟩
    · rw [sendPingUpdate_fst, lookupSession_map_step, hlook]
      rfl
    · simp [stepStatus, hidle]
    · simp [stepStatus, hidle]
    · simp [stepStatus, hidle, PingStatus.nonce, nonceAt]

/-- C3 witness: two sessions, one idle and one already probing; the tick
flips only the idle one and broadcasts one ping to exactly it. -/
theorem send_ping_tick_witness :
    ∃ m' cmds,
      notify 0 [(1, (⟨false, 0, 5⟩ : PingStatus)), (2, ⟨true, 3, 6⟩)] SEND_PING_TOKEN 2000000000 =
        some (m', [], cmds) ∧
      m' = ([(1, (⟨false, 0, 5⟩ : PingStatus)), (2, ⟨true, 3, 6⟩)]).map
        (fun e => (e.1, stepStatus 2000000000 e.2)) ∧
      (collectedSids [(1, (⟨false, 0, 5⟩ : PingStatus)), (2, ⟨true, 3, 6⟩)] = [] → cmds = []) ∧
      (collectedSids [(1, (⟨false, 0, 5⟩ : PingStatus)), (2, ⟨true, 3, 6⟩)] ≠ [] →
        cmds = [OutCmd.broadcastPing
          (collectedSids [(1, (⟨false, 0, 5⟩ : PingStatus)), (2, ⟨true, 3, 6⟩)])
          (nonceAt 2000000000)]) ∧
      ∀ sid ∈ collectedSids [(1, (⟨false, 0, 5⟩ : PingStatus)), (2, ⟨true, 3, 6⟩)], ∃ ps',
        lookupSession m' sid = some ps' ∧
        ps'.processing = true ∧ ps'.last_ping = 2000000000 ∧ ps'.nonce = nonceAt 2000000000 :=
  send_ping_tick 0 2000000000 [(1, ⟨false, 0, 5⟩), (2, ⟨true, 3, 6⟩)] (by decide)

lemma count_timeout_map_filter (p : PeerId) (c : SessionId × PingStatus → Bool) :
    ∀ m : SessionMap,
      ((m.filter c).map (fun e => Event.Timeout e.2.peer_id)).count (Event.Timeout p) =
        (m.filter (fun e => c e && (e.2.peer_id == p))).length := by
  intro m
  induction m with
  | nil => rfl
  | cons e rest ih =>
    by_cases hc : c e
    · by_cases hp : e.2.peer_id = p
      · simp [List.filter_cons, hc, hp, List.count_cons, ih]
      · simp [List.filter_cons, hc, hp, List.count_cons, ih]
    · simp [List.filter_cons, hc, ih]

/-- C4: a check-timeout tick returns the session map unchanged and sends
no transport command; it emits `PeerTimedOut` exactly once for every
tracked session whose `processing` flag is set and whose probe is at
least `timeout` old, counted per peer identity.  Because the map is
untouched, a still-unanswered session produces the same events again on
the next tick. -/
theorem check_timeout_tick (timeout now : Nat) (m : SessionMap) :
    ∃ evs, notify timeout m CHECK_TIMEOUT_TOKEN now = some (m, evs, []) ∧
      ∀ p, evs.count (Event.Timeout p) =
        (m.filter (fun e =>
          (e.2.processing && decide (timeout ≤ e.2.elapsed now)) && (e.2.peer_id == p))).length := by
  refine ⟨(m.filter (fun e : SessionId × PingStatus =>
      e.2.processing && decide (timeout ≤ e.2.elapsed now))).map
      (fun e : SessionId × PingStatus => Event.Timeout e.2.peer_id), rfl, ?_⟩
  intro p
  exact count_timeout_map_filter p _ m

lemma lookupSession_append_single (m : SessionMap) (sid : SessionId) (st : PingStatus)
    (h : lookupSession m sid = none) :
    lookupSession (m ++ [(sid, st)]) sid = some st := by
  induction m with
  | nil => simp [lookupSession]
  | cons e rest ih =>
    obtain ⟨s, ps⟩ := e
    by_cases hs : s = sid
    · simp [lookupSession, hs] at h
    · simp only [lookupSession, hs] at h ⊢
      simp [List.cons_append, lookupSession, hs, ih h]

lemma filter_key_eq_nil (m : SessionMap) (sid : SessionId)
    (h : lookupSession m sid = none) :
    m.filter (fun e => e.1 == sid) = [] := by
  induction m with
  | nil => rfl
  | cons e rest ih =>
    obtain ⟨s, ps⟩ := e
    by_cases hs : s = sid
    · simp [lookupSession, hs] at h
    · simp only [lookupSession, hs] at h
      simp [List.filter_cons, hs, ih h]

/-- C5: opening a session id that is not yet tracked inserts exactly the
state `{processing := false, last_ping := now, peer_id := pid}`; a second
open of the same session id (even with another identity or time) leaves
the map unchanged, so exactly one tracked entry with that key remains and
it keeps the original `last_ping`, flag and identity. -/
theorem connected_idempotent (m : SessionMap) (sid : SessionId) (pid pid' : PeerId)
    (now now' : Nat) (hnone : lookupSession m sid = none) :
    connected m sid (some pid) now =
      (m ++ [(sid, (⟨false, now, pid⟩ : PingStatus))], []) ∧
    lookupSession (m ++ [(sid, (⟨false, now, pid⟩ : PingStatus))]) sid =
      some ⟨false, now, pid⟩ ∧
    connected (m ++ [(sid, (⟨false, now, pid⟩ : PingStatus))]) sid (some pid') now' =
      (m ++ [(sid, (⟨false, now, pid⟩ : PingStatus))], []) ∧
    ((m ++ [(sid, (⟨false, now, pid⟩ : PingStatus))]).filter
      (fun e : SessionId × PingStatus => e.1 == sid)).length = 1 := by
  have hlook := lookupSession_append_single m sid ⟨false, now, pid⟩ hnone
  refine ⟨?_, hlook, ?_, ?_⟩
  · simp [connected, hnone]
  · simp [connected, hlook]
  · rw [List.filter_append, filter_key_eq_nil m sid hnone]
    simp

/-- C5 witness: opening session 7 twice on concrete inputs tracks exactly
one entry carrying the first open's fields. -/
theorem connected_idempotent_witness :
    connected [] 7 (some 1) 10 = ([] ++ [(7, (⟨false, 10, 1⟩ : PingStatus))], []) ∧
    lookupSession ([] ++ [(7, (⟨false, 10, 1⟩ : PingStatus))]) 7 = some ⟨false, 10, 1⟩ ∧
    connected ([] ++ [(7, (⟨false, 10, 1⟩ : PingStatus))]) 7 (some 2) 20 =
      ([] ++ [(7, (⟨false, 10, 1⟩ : PingStatus))], []) ∧
    (([] ++ [(7, (⟨false, 10, 1⟩ : PingStatus))]).filter
      (fun e : SessionId × PingStatus => e.1 == 7)).length = 1 :=
  connected_idempotent [] 7 1 2 10 20 rfl

/-- C6: a session that opens without a resolvable peer identity is met by
a disconnect request for exactly that session, and the session map is
left unchanged — no state is ever created for it. -/
theorem connected_no_identity_disconnects (m : SessionMap) (sid : SessionId) (now : Nat) :
    connected m sid none now = (m, [OutCmd.disconnect sid]) := rfl

/-- C7: the timer callback aborts (modelled by `none`) exactly on tokens
other than the registered `SEND_PING_TOKEN` and `CHECK_TIMEOUT_TOKEN`;
on the two registered tokens it always returns normally. -/
theorem notify_unknown_token_aborts (timeout : Nat) (m : SessionMap) (token now : Nat) :
    notify timeout m token now = none ↔
      ¬(token = SEND_PING_TOKEN ∨ token = CHECK_TIMEOUT_TOKEN) := by
  unfold notify
  by_cases h0 : token = SEND_PING_TOKEN
  · simp [h0]
  · by_cases h1 : token = CHECK_TIMEOUT_TOKEN
    · simp [h0, h1, SEND_PING_TOKEN, CHECK_TIMEOUT_TOKEN]
    · simp [h0, h1]

/-- Possible key agreement algorithms (`enum KeyAgreement`). -/
inductive KeyAgreement where
  | EcdhP256
  | EcdhP384
deriving DecidableEq, Repr

/-- Error values of `SecioError` reachable from `exchange.rs` (the full
error enum lives in `src/secio/src/error.rs`, outside the provided
sources; the exchange module constructs only these two variants, which
the spec calls `KeyGenerationFailed` and `SecretDerivationFailed`).  A
`Result`/`Except` carries either a value or an error, never both, so no
key material accompanies an error. -/
inductive SecioError where
  | EphemeralKeyGenerationFailed
  | SecretGenerationFailed
deriving DecidableEq, Repr

/-- Modelled from the spec: the elliptic-curve arithmetic behind
`ring::agreement` (ECDH over the P-256 and P-384 curves) is implemented
by the external `ring` crate and is not part of this repository.
Following the spec's §4.3 ("produces ephemeral key pairs ... and derives
shared secrets for two supported elliptic-curve agreement algorithms"),
each curve's cyclic group of prime order is modelled through its
isomorphism with the integers mod that order: a point is a residue, the
generator is the residue `1`, and scalar multiplication is
multiplication mod the order.  `groupOrder` is the actual group order of
each curve. -/
def groupOrder : KeyAgreement → Nat
  | KeyAgreement.EcdhP256 =>
    0xffffffff00000000ffffffffffffffffbce6faada7179e84f3b9cac2fc632551
  | KeyAgreement.EcdhP384 =>
    0xffffffffffffffffffffffffffffffffffffffffffffffffc7634d81f4372ddf581a0db248b0a77aecec196accc52973

/-- Uncompressed public-point encoding length in bytes. -/
def pubKeyLen : KeyAgreement → Nat
  | KeyAgreement.EcdhP256 => 65
  | KeyAgreement.EcdhP384 => 97

/-- Shared-secret (x-coordinate) length in bytes. -/
def secretLen : KeyAgreement → Nat
  | KeyAgreement.EcdhP256 => 32
  | KeyAgreement.EcdhP384 => 48

/-- Little-endian byte encoding of a value into exactly `len` bytes. -/
def bytesLE : Nat → Nat → List Nat
  | 0, _ => []
  | len + 1, v => v % 256 :: bytesLE len (v / 256)

/-- Value of a little-endian byte string. -/
def fromBytesLE : List Nat → Nat
  | [] => 0
  | b :: bs => b + 256 * fromBytesLE bs

/-- An ephemeral private key (`ring::agreement::EphemeralPrivateKey`):
the curve it was generated for and its secret scalar. -/
structure EphemeralPrivateKey where
  algorithm : KeyAgreement
  scalar : Nat
deriving DecidableEq, Repr

/-- Public key bytes of a private key: its scalar times the generator,
encoded with the curve's fixed length. -/
def computePublicKeyBytes (k : EphemeralPrivateKey) : List Nat :=
  bytesLE (pubKeyLen k.algorithm) (k.scalar % groupOrder k.algorithm)

/-- The `compute_public_key()` call of `generate_agreement`; `fails`
stands for the external call's possible failure. -/
def compute_public_key (k : EphemeralPrivateKey) (fails : Bool) :
    Except Unit (List Nat) :=
  if fails then Except.error () else Except.ok (computePublicKeyBytes k)

/-- `generate_agreement` from `exchange.rs`.  The two external effects
enter as explicit arguments: `rng` is the outcome of
`EphemeralPrivateKey::generate` drawing a random scalar from the secure
random source, and `computeFails` is the outcome of the public-key
computation.  Both failure branches map to
`SecioError::EphemeralKeyGenerationFailed`, exactly as in the source. -/
def generate_agreement (algorithm : KeyAgreement) (rng : Except Unit Nat)
    (computeFails : Bool) : Except SecioError (EphemeralPrivateKey × List Nat) :=
  match rng with
  | Except.ok r =>
    let tmp_priv_key : EphemeralPrivateKey := ⟨algorithm, r % groupOrder algorithm⟩
    match compute_public_key tmp_priv_key computeFails with
    | Except.ok tmp_pub_key => Except.ok (tmp_priv_key, tmp_pub_key)
    | Except.error _ => Except.error SecioError.EphemeralKeyGenerationFailed
  | Except.error _ => Except.error SecioError.EphemeralKeyGenerationFailed

/-- Modelled from the spec: `ring::agreement::agree_ephemeral` (external
crate).  It consumes the private key, interprets the peer's bytes under
the given algorithm, returns `error_value` on any failure (malformed
peer key or mismatched algorithm), and otherwise applies `kdf` to the
raw shared key material. -/
def agree_ephemeral {E A : Type} (my_private_key : EphemeralPrivateKey)
    (algorithm : KeyAgreement) (other_public_key : List Nat)
    (error_value : E) (kdf : List Nat → Except E A) : Except E A :=
  if my_private_key.algorithm = algorithm ∧
      other_public_key.length = pubKeyLen algorithm then
    kdf (bytesLE (secretLen algorithm)
      (my_private_key.scalar * (fromBytesLE other_public_key % groupOrder algorithm) %
        groupOrder algorithm))
  else Except.error error_value

/-- `agree` from `exchange.rs`: calls `agree_ephemeral` with
`SecretGenerationFailed` as the error value and the kdf
`|key_material| Ok(key_material.to_vec())`; `_out_size` is not used by
the source. -/
def agree (algorithm : KeyAgreement) (my_private_key : EphemeralPrivateKey)
    (other_public_key : List Nat) (_out_size : Nat) : Except SecioError (List Nat) :=
  agree_ephemeral my_private_key algorithm other_public_key
    SecioError.SecretGenerationFailed (fun key_material => Except.ok key_material)

lemma bytesLE_length (len : Nat) : ∀ v, (bytesLE len v).length = len := by
  induction len with
  | zero => intro v; rfl
  | succ k ih => intro v; simp [bytesLE, ih]

lemma fromBytesLE_bytesLE (len : Nat) : ∀ v, v < 256 ^ len →
    fromBytesLE (bytesLE len v) = v := by
  induction len with
  | zero =>
    intro v hv
    interval_cases v
    rfl
  | succ k ih =>
    intro v hv
    have hdiv : v / 256 < 256 ^ k := by
      rw [Nat.div_lt_iff_lt_mul (by norm_num)]
      calc v < 256 ^ (k + 1) := hv
        _ = 256 ^ k * 256 := by ring
    rw [bytesLE, fromBytesLE, ih (v / 256) hdiv]
    omega

lemma groupOrder_lt_pubPow (a : KeyAgreement) :
    groupOrder a < 256 ^ pubKeyLen a := by
  cases a <;> decide

lemma secretLen_pos (a : KeyAgreement) : 0 < secretLen a := by
  cases a <;> decide

lemma bytesLE_ne_nil (len v : Nat) (h : 0 < len) : bytesLE len v ≠ [] := by
  cases len with
  | zero => exact absurd h (by simp)
  | succ k => simp [bytesLE]

/-- C8: `generate_agreement` either succeeds or fails with exactly
`EphemeralKeyGenerationFailed` (whether the random source or the
public-key computation failed), and `agree` either succeeds or fails
with exactly `SecretGenerationFailed`; the `Except` result carries a
value or an error, never both, so no key material accompanies an
error. -/
theorem exchange_error_values (algorithm : KeyAgreement) (rng : Except Unit Nat)
    (computeFails : Bool) (k : EphemeralPrivateKey) (pub : List Nat) (outsz : Nat) :
    ((∃ res, generate_agreement algorithm rng computeFails = Except.ok res) ∨
      generate_agreement algorithm rng computeFails =
        Except.error SecioError.EphemeralKeyGenerationFailed) ∧
    ((∃ s, agree algorithm k pub outsz = Except.ok s) ∨
      agree algorithm k pub outsz = Except.error SecioError.SecretGenerationFailed) := by
  constructor
  · cases rng with
    | error e => exact Or.inr rfl
    | ok r =>
      cases computeFails with
      | false => exact Or.inl ⟨_, rfl⟩
      | true => exact Or.inr rfl
  · by_cases hc : k.algorithm = algorithm ∧ pub.length = pubKeyLen algorithm
    · exact Or.inl ⟨_, by unfold agree agree_ephemeral; rw [if_pos hc]⟩
    · exact Or.inr (by unfold agree agree_ephemeral; rw [if_neg hc])

lemma groupOrder_pos (a : KeyAgreement) : 0 < groupOrder a := by
  cases a <;> decide

lemma generate_agreement_ok (algorithm : KeyAgreement) (r : Nat) :
    generate_agreement algorithm (Except.ok r) false =
      Except.ok ((⟨algorithm, r % groupOrder algorithm⟩ : EphemeralPrivateKey),
        computePublicKeyBytes ⟨algorithm, r % groupOrder algorithm⟩) := rfl

lemma computePublicKeyBytes_reduced (algorithm : KeyAgreement) (r : Nat) :
    computePublicKeyBytes (⟨algorithm, r % groupOrder algorithm⟩ : EphemeralPrivateKey) =
      bytesLE (pubKeyLen algorithm) (r % groupOrder algorithm) := by
  show bytesLE (pubKeyLen algorithm) (r % groupOrder algorithm % groupOrder algorithm) = _
  rw [Nat.mod_mod_of_dvd r dvd_rfl]

lemma agree_on_generated (algorithm : KeyAgreement) (x y outsz : Nat)
    (hy : y < groupOrder algorithm) :
    agree algorithm ⟨algorithm, x⟩ (bytesLE (pubKeyLen algorithm) y) outsz =
      Except.ok (bytesLE (secretLen algorithm) (x * y % groupOrder algorithm)) := by
  have hlen : (bytesLE (pubKeyLen algorithm) y).length = pubKeyLen algorithm :=
    bytesLE_length _ _
  have hrt : fromBytesLE (bytesLE (pubKeyLen algorithm) y) = y :=
    fromBytesLE_bytesLE _ _ (lt_trans hy (groupOrder_lt_pubPow algorithm))
  simp [agree, agree_ephemeral, hlen, hrt, Nat.mod_eq_of_lt hy]

/-- C9: for both algorithms, two successfully generated ephemeral key
pairs agree on the same shared secret no matter which side combines its
private key with the other's public bytes, and the secret is non-empty
byte data. -/
theorem agreement_round_trip (algorithm : KeyAgreement) (ra rb outsz : Nat)
    (privA privB : EphemeralPrivateKey) (pubA pubB : List Nat)
    (hA : generate_agreement algorithm (Except.ok ra) false = Except.ok (privA, pubA))
    (hB : generate_agreement algorithm (Except.ok rb) false = Except.ok (privB, pubB)) :
    agree algorithm privA pubB outsz = agree algorithm privB pubA outsz ∧
    ∃ s, agree algorithm privA pubB outsz = Except.ok s ∧ s ≠ [] := by
  rw [generate_agreement_ok] at hA hB
  have hA' := Except.ok.inj hA
  have hB' := Except.ok.inj hB
  injection hA' with hA1 hA2
  injection hB' with hB1 hB2
  subst hA1
  subst hA2
  subst hB1
  subst hB2
  rw [computePublicKeyBytes_reduced, computePublicKeyBytes_reduced]
  have ha : ra % groupOrder algorithm < groupOrder algorithm :=
    Nat.mod_lt _ (groupOrder_pos algorithm)
  have hb : rb % groupOrder algorithm < groupOrder algorithm :=
    Nat.mod_lt _ (groupOrder_pos algorithm)
  rw [agree_on_generated algorithm _ _ outsz hb, agree_on_generated algorithm _ _ outsz ha]
  refine ⟨?_, ⟨_, rfl, bytesLE_ne_nil _ _ (secretLen_pos algorithm)⟩⟩
  rw [Nat.mul_comm]

/-- C9 witness: concrete P-256 key pairs generated from the scalars 3 and
5 derive equal, non-empty shared secrets on both sides. -/
theorem agreement_round_trip_witness :
    agree KeyAgreement.EcdhP256
        ⟨KeyAgreement.EcdhP256, 3 % groupOrder KeyAgreement.EcdhP256⟩
        (computePublicKeyBytes
          ⟨KeyAgreement.EcdhP256, 5 % groupOrder KeyAgreement.EcdhP256⟩) 32 =
      agree KeyAgreement.EcdhP256
        ⟨KeyAgreement.EcdhP256, 5 % groupOrder KeyAgreement.EcdhP256⟩
        (computePublicKeyBytes
          ⟨KeyAgreement.EcdhP256, 3 % groupOrder KeyAgreement.EcdhP256⟩) 32 ∧
    ∃ s, agree KeyAgreement.EcdhP256
        ⟨KeyAgreement.EcdhP256, 3 % groupOrder KeyAgreement.EcdhP256⟩
        (computePublicKeyBytes
          ⟨KeyAgreement.EcdhP256, 5 % groupOrder KeyAgreement.EcdhP256⟩) 32 =
      Except.ok s ∧ s ≠ [] :=
  agreement_round_trip KeyAgreement.EcdhP256 3 5 32 _ _ _ _ rfl rfl

/-- C10: the `_out_size` argument of `agree` is dead: two calls differing
only in it return identical results, error or success alike. -/
theorem agree_ignores_out_size (algorithm : KeyAgreement) (k : EphemeralPrivateKey)
    (pub : List Nat) (o1 o2 : Nat) :
    agree algorithm k pub o1 = agree algorithm k pub o2 := rfl
